import Mathlib

/-!
Verification of the pdfcrop core (`crop.py`): content-bounding-box detection,
margin aggregation, uniform-canvas planning, and the manual-crop page gate.

Coordinates are modelled over `ℚ` (the source computes with Python floats on
exact decimal inputs); pixel intensities are `ℕ` (uint8 values 0..255).
Python's `int()` truncation, slicing with possibly negative indices, and
banker's `round()` are modelled explicitly.
-/

/-- Axis-aligned rectangle `(x0, y0, x1, y1)` in document coordinates,
mirroring `fitz.Rect`. -/
structure Rect where
  x0 : ℚ
  y0 : ℚ
  x1 : ℚ
  y1 : ℚ
deriving DecidableEq, Repr

/-- Width of a rectangle, x1 - x0, as fitz defines it. -/
def Rect.width (r : Rect) : ℚ := r.x1 - r.x0

/-- Height of a rectangle, y1 - y0, as fitz defines it. -/
def Rect.height (r : Rect) : ℚ := r.y1 - r.y0

/-- Row-major grayscale raster of a rendered page (`img_array` in
`get_content_bbox`): a list of pixel rows, each a list of intensities. -/
structure PixelGrid where
  data : List (List ℕ)
deriving DecidableEq, Repr

/-- Number of pixel rows, shape 0 of the raster array. -/
def PixelGrid.h (g : PixelGrid) : ℕ := g.data.length

/-- Number of pixel columns, shape 1 of the raster array (numpy arrays are
rectangular, so the first row's length is the grid width). -/
def PixelGrid.w (g : PixelGrid) : ℕ := (g.data.headD []).length

/-- Python `int()` on a real value: truncation toward zero. -/
def pyInt (q : ℚ) : ℤ := if 0 ≤ q then ⌊q⌋ else ⌈q⌉

/-- Python slice `l[i:]`, with negative indices counted from the end. -/
def pySliceFrom {α : Type} (l : List α) (i : ℤ) : List α :=
  if 0 ≤ i then l.drop i.toNat else l.drop ((l.length : ℤ) + i).toNat

/-- Content-mask test: a pixel is content when its intensity is strictly
below 255 times the background threshold. -/
def isContentPixel (v : ℕ) (threshold : ℚ) : Bool :=
  decide ((v : ℚ) < 255 * threshold)

/-- One entry of `rows = np.any(content_mask, axis=1)`. -/
def rowHasContent (row : List ℕ) (threshold : ℚ) : Bool :=
  row.any (fun v => isContentPixel v threshold)

/-- One entry of `cols = np.any(content_mask, axis=0)`; out-of-range reads
default to background (numpy grids are rectangular). -/
def colHasContent (g : PixelGrid) (c : ℕ) (threshold : ℚ) : Bool :=
  g.data.any (fun row => isContentPixel (row.getD c 255) threshold)

/-- Row mask: one boolean per pixel row, true when the row holds content. -/
def rowsMask (g : PixelGrid) (threshold : ℚ) : List Bool :=
  g.data.map (fun row => rowHasContent row threshold)

/-- Column mask: one boolean per pixel column, true when it holds content. -/
def colsMask (g : PixelGrid) (threshold : ℚ) : List Bool :=
  (List.range g.w).map (fun c => colHasContent g c threshold)

/-- Sorted indices of the true entries of a mask, as np.where returns. -/
def trueIndices (bs : List Bool) : List ℕ :=
  (List.range bs.length).filter (fun i => bs.getD i false)

/-- Whether any pixel row holds content. -/
def rowsAny (g : PixelGrid) (threshold : ℚ) : Bool := (rowsMask g threshold).any id

/-- Whether any pixel column holds content. -/
def colsAny (g : PixelGrid) (threshold : ℚ) : Bool := (colsMask g threshold).any id

/-- Indices of the content-bearing pixel rows, sorted ascending. -/
def contentRowList (g : PixelGrid) (threshold : ℚ) : List ℕ :=
  trueIndices (rowsMask g threshold)

/-- Indices of the content-bearing pixel columns, sorted ascending. -/
def contentColList (g : PixelGrid) (threshold : ℚ) : List ℕ :=
  trueIndices (colsMask g threshold)

/-- First content row index. -/
def yMinOf (g : PixelGrid) (threshold : ℚ) : ℕ := (contentRowList g threshold).headD 0

/-- Last content row index, before the footer adjustment. -/
def yMaxRaw (g : PixelGrid) (threshold : ℚ) : ℕ := (contentRowList g threshold).getLastD 0

/-- First content column index. -/
def xMinOf (g : PixelGrid) (threshold : ℚ) : ℕ := (contentColList g threshold).headD 0

/-- Last content column index. -/
def xMaxOf (g : PixelGrid) (threshold : ℚ) : ℕ := (contentColList g threshold).getLastD 0

/-- First pixel row of the footer band: the truncation toward zero of
page height times one minus the footer height ratio. -/
def footerStart (h : ℕ) (footerHeightRatio : ℚ) : ℤ :=
  pyInt ((h : ℚ) * (1 - footerHeightRatio))

/-- Gap threshold: the truncation toward zero of 2 percent of the height. -/
def gapThreshold (h : ℕ) : ℤ := pyInt ((h : ℚ) * (2 / 100))

/-- Whether the footer band (the row mask from the band start on, with
Python slice semantics) contains a content row. -/
def footerAny (g : PixelGrid) (threshold footerHeightRatio : ℚ) : Bool :=
  (pySliceFrom (rowsMask g threshold) (footerStart g.h footerHeightRatio)).any id

/-- The backward scan `for i in range(len(content_rows) - 1, 0, -1)` looking
for the first gap with `gap_size > gap_threshold and content_rows[i] > footer_start`;
returns `content_rows[i-1]` when found.  The argument is the current loop index. -/
def gapScan (cr : List ℕ) (gt fs : ℤ) : ℕ → Option ℕ
  | 0 => none
  | i + 1 =>
    if gt < (cr.getD (i + 1) 0 : ℤ) - (cr.getD i 0 : ℤ) ∧ fs < (cr.getD (i + 1) 0 : ℤ)
    then some (cr.getD i 0)
    else gapScan cr gt fs i

/-- Result of the backward scan (it stays at `y_max` when no gap is found). -/
def mainContentEnd (g : PixelGrid) (threshold footerHeightRatio : ℚ) : ℕ :=
  (gapScan (contentRowList g threshold) (gapThreshold g.h) (footerStart g.h footerHeightRatio)
    ((contentRowList g threshold).length - 1)).getD (yMaxRaw g threshold)

/-- Final `y_max`: footer adjustment applies only when the footer band holds
content and `main_content_end < y_max and main_content_end > y_min`. -/
def yMaxOf (g : PixelGrid) (threshold footerHeightRatio : ℚ) : ℕ :=
  if footerAny g threshold footerHeightRatio then
    if mainContentEnd g threshold footerHeightRatio < yMaxRaw g threshold ∧
        yMinOf g threshold < mainContentEnd g threshold footerHeightRatio
    then mainContentEnd g threshold footerHeightRatio
    else yMaxRaw g threshold
  else yMaxRaw g threshold

/-- The detected content box in PDF coordinates (the raster is rendered at
2x zoom, so pixel indices are divided by 2), as `get_content_bbox` returns. -/
def get_content_bbox (g : PixelGrid) (pageRect : Rect)
    (threshold footerHeightRatio : ℚ) : Rect :=
  if !rowsAny g threshold || !colsAny g threshold then pageRect
  else
    { x0 := pageRect.x0 + (xMinOf g threshold : ℚ) / 2
      y0 := pageRect.y0 + (yMinOf g threshold : ℚ) / 2
      x1 := pageRect.x0 + (xMaxOf g threshold : ℚ) / 2
      y1 := pageRect.y0 + (yMaxOf g threshold footerHeightRatio : ℚ) / 2 }

/-- Modelled from the spec: the claim's bottom-up gap scan in which the later
row "lies within the footer band", i.e. its index is at least the band's
start index (the code's scan instead requires strictly greater). -/
def gapScanSpec (cr : List ℕ) (gt fs : ℤ) : ℕ → Option ℕ
  | 0 => none
  | i + 1 =>
    if gt < (cr.getD (i + 1) 0 : ℤ) - (cr.getD i 0 : ℤ) ∧ fs ≤ (cr.getD (i + 1) 0 : ℤ)
    then some (cr.getD i 0)
    else gapScanSpec cr gt fs i

/-- The input values in ascending order (numpy sorts before interpolating). -/
def sortedOf (l : List ℚ) : List ℚ := List.insertionSort (fun a b => a ≤ b) l

/-- The fractional rank `(25 / 100) * (n - 1)` used by numpy's percentile. -/
def pctPos (l : List ℚ) : ℚ := (25 / 100) * ((l.length : ℚ) - 1)

/-- The 25th percentile with numpy's default linear interpolation: take the
value at the floor of the fractional rank and interpolate toward the next
rank by the fractional part. -/
def percentile25 (l : List ℚ) : ℚ :=
  (sortedOf l).getD (⌊pctPos l⌋).toNat 0 +
    (pctPos l - (⌊pctPos l⌋ : ℚ)) *
      ((sortedOf l).getD ((⌊pctPos l⌋).toNat + 1) 0 -
        (sortedOf l).getD (⌊pctPos l⌋).toNat 0)

/-- Clamped left margin fraction of one sample. -/
def leftMarginOf (cb pr : Rect) : ℚ := max 0 ((cb.x0 - pr.x0) / pr.width)

/-- Clamped top margin fraction of one sample. -/
def topMarginOf (cb pr : Rect) : ℚ := max 0 ((cb.y0 - pr.y0) / pr.height)

/-- Clamped right margin fraction of one sample. -/
def rightMarginOf (cb pr : Rect) : ℚ := max 0 ((pr.x1 - cb.x1) / pr.width)

/-- Clamped bottom margin fraction of one sample. -/
def bottomMarginOf (cb pr : Rect) : ℚ := max 0 ((pr.y1 - cb.y1) / pr.height)

/-- Loop body of `for content_box, page_rect in zip(content_boxes, page_sizes)`:
append the four clamped margins to the four accumulator lists. -/
def marginStep (acc : List ℚ × List ℚ × List ℚ × List ℚ) (cp : Rect × Rect) :
    List ℚ × List ℚ × List ℚ × List ℚ :=
  (acc.1 ++ [leftMarginOf cp.1 cp.2],
   acc.2.1 ++ [topMarginOf cp.1 cp.2],
   acc.2.2.1 ++ [rightMarginOf cp.1 cp.2],
   acc.2.2.2 ++ [bottomMarginOf cp.1 cp.2])

/-- The four per-page margin lists built by `analyze_pdf_margins`. -/
def marginLists (content_boxes page_sizes : List Rect) :
    List ℚ × List ℚ × List ℚ × List ℚ :=
  (content_boxes.zip page_sizes).foldl marginStep ([], [], [], [])

/-- The pure core of `analyze_pdf_margins`: per-page margin lists reduced by
`max(0, np.percentile(·, 25) - buffer)` on each edge. -/
def analyze_pdf_margins (content_boxes page_sizes : List Rect) (buffer : ℚ) :
    ℚ × ℚ × ℚ × ℚ :=
  let m := marginLists content_boxes page_sizes
  (max 0 (percentile25 m.1 - buffer),
   max 0 (percentile25 m.2.1 - buffer),
   max 0 (percentile25 m.2.2.1 - buffer),
   max 0 (percentile25 m.2.2.2 - buffer))

/-- Modelled from the spec: the claim's per-edge aggregation over a list of
`(contentBox, pageRect)` samples, written with the claim's raw-fraction
formulas, for comparison with `analyze_pdf_margins`. -/
def specMarginAggregate (samples : List (Rect × Rect)) (buffer : ℚ) :
    ℚ × ℚ × ℚ × ℚ :=
  (max 0 (percentile25 (samples.map (fun s => max 0 ((s.1.x0 - s.2.x0) / (s.2.x1 - s.2.x0)))) - buffer),
   max 0 (percentile25 (samples.map (fun s => max 0 ((s.1.y0 - s.2.y0) / (s.2.y1 - s.2.y0)))) - buffer),
   max 0 (percentile25 (samples.map (fun s => max 0 ((s.2.x1 - s.1.x1) / (s.2.x1 - s.2.x0)))) - buffer),
   max 0 (percentile25 (samples.map (fun s => max 0 ((s.2.y1 - s.1.y1) / (s.2.y1 - s.2.y0)))) - buffer))

/-- Per-page crop rectangle of `crop_pdf`: shrink `page_rect` by the margin
fractions on each side. -/
def crop_rect_for (pageRect : Rect) (l t r b : ℚ) : Rect :=
  { x0 := pageRect.x0 + pageRect.width * l
    y0 := pageRect.y0 + pageRect.height * t
    x1 := pageRect.x1 - pageRect.width * r
    y1 := pageRect.y1 - pageRect.height * b }

/-- First pass of `crop_pdf`: running maxima of cropped width and height,
starting from `max_width = 0` and `max_height = 0`. -/
def canvas_plan (pages : List Rect) (l t r b : ℚ) : ℚ × ℚ :=
  pages.foldl
    (fun acc pr =>
      (max acc.1 (crop_rect_for pr l t r b).width,
       max acc.2 (crop_rect_for pr l t r b).height))
    (0, 0)

/-- Horizontal scale: canvas width over cropped width when the latter is
positive, else 1. -/
def scale_x_for (canvasW cw : ℚ) : ℚ := if 0 < cw then canvasW / cw else 1

/-- Vertical scale: canvas height over cropped height when the latter is
positive, else 1. -/
def scale_y_for (canvasH ch : ℚ) : ℚ := if 0 < ch then canvasH / ch else 1

/-- Uniform page scale: the smaller of the two per-axis scales. -/
def page_scale (canvasW canvasH cw ch : ℚ) : ℚ :=
  min (scale_x_for canvasW cw) (scale_y_for canvasH ch)

/-- Target rectangle for one page: scaled crop dimensions centered in the
canvas, with offsets half of the leftover space on each axis. -/
def target_rect_for (canvasW canvasH : ℚ) (crop : Rect) : Rect :=
  { x0 := (canvasW - crop.width * page_scale canvasW canvasH crop.width crop.height) / 2
    y0 := (canvasH - crop.height * page_scale canvasW canvasH crop.width crop.height) / 2
    x1 := (canvasW - crop.width * page_scale canvasW canvasH crop.width crop.height) / 2 +
      crop.width * page_scale canvasW canvasH crop.width crop.height
    y1 := (canvasH - crop.height * page_scale canvasW canvasH crop.width crop.height) / 2 +
      crop.height * page_scale canvasW canvasH crop.width crop.height }

/-- One output page of `crop_pdf`'s second pass: a fresh uniform-size page
plus the `show_pdf_page` target and clip rectangles. -/
structure OutPagePlan where
  width : ℚ
  height : ℚ
  targetRect : Rect
  clipRect : Rect
deriving DecidableEq, Repr

/-- Loop body of the second pass: append one new page per input page. -/
def outStep (canvasW canvasH l t r b : ℚ) (acc : List OutPagePlan) (pr : Rect) :
    List OutPagePlan :=
  acc ++ [{ width := canvasW, height := canvasH,
            targetRect := target_rect_for canvasW canvasH (crop_rect_for pr l t r b),
            clipRect := crop_rect_for pr l t r b }]

/-- Second pass of `crop_pdf`: build the output document page by page. -/
def crop_pdf_pages (pages : List Rect) (l t r b : ℚ) : List OutPagePlan :=
  pages.foldl
    (outStep (canvas_plan pages l t r b).1 (canvas_plan pages l t r b).2 l t r b) []

/-- Python `round()`: round half to even on the exact value. -/
def pyRound (q : ℚ) : ℤ :=
  if q - (⌊q⌋ : ℚ) < 1 / 2 then ⌊q⌋
  else if 1 / 2 < q - (⌊q⌋ : ℚ) then ⌊q⌋ + 1
  else if ⌊q⌋ % 2 = 0 then ⌊q⌋ else ⌊q⌋ + 1

/-- Rounded page size used for bucketing. -/
def page_size_rounded (pr : Rect) : ℤ × ℤ := (pyRound pr.width, pyRound pr.height)

/-- The distinct values of a list in first-occurrence order — the key order of
`collections.Counter(page_sizes)`. -/
def firstDistinct (l : List (ℤ × ℤ)) : List (ℤ × ℤ) :=
  l.foldl (fun acc s => if s ∈ acc then acc else acc ++ [s]) []

/-- Most common rounded size: the maximal-count size, ties broken by first
occurrence (Counter preserves insertion order and nlargest is stable). -/
def most_common_size (sizes : List (ℤ × ℤ)) : ℤ × ℤ :=
  let uniq := firstDistinct sizes
  let m := (uniq.map (fun u => sizes.count u)).foldl max 0
  (uniq.find? (fun u => sizes.count u == m)).getD (0, 0)

/-- One output page of the GUI crop loop: either a cropped page of the crop
rectangle's size, or the original page carried through verbatim. -/
inductive GPage where
  | cropped (width height : ℚ) (target clip : Rect)
  | unchanged (original : Rect)
deriving DecidableEq, Repr

/-- The page produced for index `i` by `PDFCropGUI.crop_pdf`'s loop. -/
def guiPageFor (pages : List Rect) (minPage maxPage : ℕ) (cropRect : Rect)
    (mcs : ℤ × ℤ) (i : ℕ) : GPage :=
  if minPage ≤ i + 1 ∧ i + 1 ≤ maxPage ∧
      page_size_rounded (pages.getD i (Rect.mk 0 0 0 0)) = mcs
  then GPage.cropped cropRect.width cropRect.height
        (Rect.mk 0 0 cropRect.width cropRect.height) cropRect
  else GPage.unchanged (pages.getD i (Rect.mk 0 0 0 0))

/-- Loop body of `PDFCropGUI.crop_pdf`: emit one page and bump the matching
counter (`cropped_pages` or `unchanged_pages`). -/
def guiStep (pages : List Rect) (minPage maxPage : ℕ) (cropRect : Rect)
    (mcs : ℤ × ℤ) (acc : List GPage × ℕ × ℕ) (i : ℕ) : List GPage × ℕ × ℕ :=
  if minPage ≤ i + 1 ∧ i + 1 ≤ maxPage ∧
      page_size_rounded (pages.getD i (Rect.mk 0 0 0 0)) = mcs
  then (acc.1 ++ [GPage.cropped cropRect.width cropRect.height
          (Rect.mk 0 0 cropRect.width cropRect.height) cropRect],
        acc.2.1 + 1, acc.2.2)
  else (acc.1 ++ [GPage.unchanged (pages.getD i (Rect.mk 0 0 0 0))],
        acc.2.1, acc.2.2 + 1)

/-- Output loop of the GUI crop: the output pages plus the pair of counters
for cropped and unchanged pages. -/
def gui_crop_pdf (pages : List Rect) (minPage maxPage : ℕ) (cropRect : Rect) :
    List GPage × ℕ × ℕ :=
  (List.range pages.length).foldl
    (guiStep pages minPage maxPage cropRect (most_common_size (pages.map page_size_rounded)))
    ([], 0, 0)

/-- A 1x1 raster with a single content pixel, for the C1 witness. -/
def gridC1 : PixelGrid := PixelGrid.mk [[0]]

/-- A 10-row raster with content rows at 2 and 8, for the C2 counterexample:
with footer ratio 0.2 the footer band starts at row 8, so the band contains
content, and the claim's scan (later row within the band) truncates at the
gap between rows 2 and 8, while the code's strict comparison does not. -/
def gridC2 : PixelGrid :=
  PixelGrid.mk [[255], [255], [0], [255], [255], [255], [255], [255], [0], [255]]

/-- A 10-row raster with content rows at 1, 3 and 9, for the C2 (amended)
witness: footer ratio 0.2 puts the band start at row 8, row 9 is strictly
inside the band, and the gap 3 to 9 triggers truncation to row 3. -/
def gridC2w : PixelGrid :=
  PixelGrid.mk [[255], [0], [255], [0], [255], [255], [255], [255], [255], [0]]

/-! ## Basic list lemmas -/

lemma mem_trueIndices_lt {bs : List Bool} {i : ℕ} (h : i ∈ trueIndices bs) :
    i < bs.length := by
  simp only [trueIndices, List.mem_filter, List.mem_range] at h
  exact h.1

lemma trueIndices_ne_nil {bs : List Bool} (h : bs.any id = true) :
    trueIndices bs ≠ [] := by
  obtain ⟨b, hb, hid⟩ := List.any_eq_true.1 h
  obtain ⟨i, hi, hget⟩ := List.mem_iff_getElem.1 hb
  have hmem : i ∈ trueIndices bs := by
    simp only [trueIndices, List.mem_filter, List.mem_range]
    refine ⟨hi, ?_⟩
    rw [List.getD_eq_getElem _ _ hi, hget]
    simpa using hid
  intro hnil
  rw [hnil] at hmem
  exact List.not_mem_nil _ hmem

lemma getLastD_mem {α : Type} {l : List α} (h : l ≠ []) (d : α) :
    l.getLastD d ∈ l := by
  rw [List.getLastD_eq_getLast?, List.getLast?_eq_getLast l h]
  exact List.getLast_mem h

lemma headD_mem {α : Type} {l : List α} (h : l ≠ []) (d : α) :
    l.headD d ∈ l := by
  rw [List.headD_eq_head?, List.head?_eq_head h]
  exact List.head_mem h

lemma foldl_max_init {α : Type} [LinearOrder α] :
    ∀ (l : List α) (a : α), a ≤ l.foldl max a := by
  intro l
  induction l with
  | nil => intro a; exact le_refl a
  | cons hd tl ih =>
    intro a
    calc a ≤ max a hd := le_max_left a hd
      _ ≤ tl.foldl max (max a hd) := ih (max a hd)

lemma foldl_max_le {α : Type} [LinearOrder α] :
    ∀ (l : List α) (a x : α), x ∈ l → x ≤ l.foldl max a := by
  intro l
  induction l with
  | nil => intro a x hx; exact absurd hx (List.not_mem_nil x)
  | cons hd tl ih =>
    intro a x hx
    rcases List.mem_cons.1 hx with h | h
    · subst h
      calc x ≤ max a x := le_max_right a x
        _ ≤ tl.foldl max (max a x) := foldl_max_init tl (max a x)
    · exact ih (max a hd) x h

lemma foldl_max_cases {α : Type} [LinearOrder α] :
    ∀ (l : List α) (a : α), l.foldl max a = a ∨ l.foldl max a ∈ l := by
  intro l
  induction l with
  | nil => intro a; exact Or.inl rfl
  | cons hd tl ih =>
    intro a
    rcases ih (max a hd) with h | h
    · rcases max_choice a hd with hm | hm
      · exact Or.inl (by rw [List.foldl_cons, h, hm])
      · exact Or.inr (by rw [List.foldl_cons, h, hm]; exact List.mem_cons_self hd tl)
    · exact Or.inr (List.mem_cons_of_mem hd h)

/-! ## C8: blank pages fall back to the full page rectangle -/

/-- C8: for every page in which no pixel's grayscale intensity is below
255 times the background threshold, the detector returns exactly the full
input page rectangle (recovered locally, never an error). -/
theorem blank_page_full_rect (g : PixelGrid) (pageRect : Rect)
    (threshold footerHeightRatio : ℚ)
    (hblank : ∀ row ∈ g.data, ∀ v ∈ row, ¬ ((v : ℚ) < 255 * threshold)) :
    get_content_bbox g pageRect threshold footerHeightRatio = pageRect := by
  have hrows : rowsAny g threshold = false := by
    cases hA : rowsAny g threshold with
    | false => rfl
    | true =>
      exfalso
      simp only [rowsAny, rowsMask] at hA
      obtain ⟨b, hb, hid⟩ := List.any_eq_true.1 hA
      obtain ⟨row, hrow, hmap⟩ := List.mem_map.1 hb
      have hrc : rowHasContent row threshold = true := by rw [hmap]; simpa using hid
      obtain ⟨v, hv, hvp⟩ := List.any_eq_true.1 hrc
      exact hblank row hrow v hv (by simpa [isContentPixel] using hvp)
  unfold get_content_bbox
  rw [if_pos]
  rw [hrows]
  rfl

/-- Witness for C8 on a concrete all-white 2x2 grid. -/
theorem blank_page_full_rect_w :
    (∀ row ∈ (PixelGrid.mk [[255, 255], [255, 255]]).data, ∀ v ∈ row,
        ¬ ((v : ℚ) < 255 * (95 / 100))) ∧
    get_content_bbox (PixelGrid.mk [[255, 255], [255, 255]]) (Rect.mk 0 0 3 4)
      (95 / 100) (1 / 10) = Rect.mk 0 0 3 4 :=
  ⟨by norm_num,
   blank_page_full_rect (PixelGrid.mk [[255, 255], [255, 255]]) (Rect.mk 0 0 3 4)
     (95 / 100) (1 / 10) (by norm_num)⟩

/-! ## C7: degenerate crops use scale 1, no division -/

/-- C7: for a page whose cropped width or height is non-positive, the scale
factor along that dimension is defined as 1 (the guarded branch avoids any
division), and the per-page target rectangle is still produced (here with
uniform scale 1 when both dimensions are degenerate). -/
theorem degenerate_scale_one (canvasW canvasH : ℚ) (crop : Rect) :
    (crop.width ≤ 0 → scale_x_for canvasW crop.width = 1) ∧
    (crop.height ≤ 0 → scale_y_for canvasH crop.height = 1) ∧
    (crop.width ≤ 0 → crop.height ≤ 0 →
      target_rect_for canvasW canvasH crop =
        Rect.mk ((canvasW - crop.width) / 2) ((canvasH - crop.height) / 2)
          ((canvasW - crop.width) / 2 + crop.width)
          ((canvasH - crop.height) / 2 + crop.height)) := by
  refine ⟨fun hw => ?_, fun hh => ?_, fun hw hh => ?_⟩
  · rw [scale_x_for, if_neg (not_lt.2 hw)]
  · rw [scale_y_for, if_neg (not_lt.2 hh)]
  · have hs : page_scale canvasW canvasH crop.width crop.height = 1 := by
      rw [page_scale, scale_x_for, if_neg (not_lt.2 hw), scale_y_for,
        if_neg (not_lt.2 hh), min_self]
    simp [target_rect_for, hs]

/-- Witness for C7 on a zero-size crop rectangle. -/
theorem degenerate_scale_one_w :
    (Rect.mk 0 0 0 0).width ≤ 0 ∧
    scale_x_for 3 (Rect.mk 0 0 0 0).width = 1 ∧
    scale_y_for 5 (Rect.mk 0 0 0 0).height = 1 :=
  ⟨by norm_num [Rect.width],
   (degenerate_scale_one 3 5 (Rect.mk 0 0 0 0)).1 (by norm_num [Rect.width]),
   (degenerate_scale_one 3 5 (Rect.mk 0 0 0 0)).2.1 (by norm_num [Rect.height])⟩

/-! ## C10: one output page per input page -/

lemma foldl_outStep_length (cw ch l t r b : ℚ) :
    ∀ (ps : List Rect) (acc : List OutPagePlan),
      (ps.foldl (outStep cw ch l t r b) acc).length = acc.length + ps.length := by
  intro ps
  induction ps with
  | nil => intro acc; simp
  | cons p ps ih =>
    intro acc
    rw [List.foldl_cons, ih]
    simp [outStep]
    omega

/-- C10: the uniform-canvas crop creates exactly one output page per input
page, so the output page count equals the original page count. -/
theorem crop_pdf_page_count (pages : List Rect) (l t r b : ℚ) :
    (crop_pdf_pages pages l t r b).length = pages.length := by
  unfold crop_pdf_pages
  rw [foldl_outStep_length]
  simp

/-! ## C4: canvas dimensions are the achieved maxima of cropped dimensions -/

lemma foldl_pair_max (f g : Rect → ℚ) :
    ∀ (ps : List Rect) (a b : ℚ),
      ps.foldl (fun acc pr => (max acc.1 (f pr), max acc.2 (g pr))) (a, b) =
        ((ps.map f).foldl max a, (ps.map g).foldl max b) := by
  intro ps
  induction ps with
  | nil => intro a b; rfl
  | cons p ps ih =>
    intro a b
    simp only [List.foldl_cons, List.map_cons]
    exact ih (max a (f p)) (max b (g p))

lemma crop_width_nonneg (p : Rect) (l t r b : ℚ) (hp : p.x0 ≤ p.x1)
    (hlr : l + r ≤ 1) : 0 ≤ (crop_rect_for p l t r b).width := by
  have hw : (crop_rect_for p l t r b).width = (p.x1 - p.x0) * (1 - (l + r)) := by
    simp only [crop_rect_for, Rect.width, Rect.height]
    ring
  rw [hw]
  exact mul_nonneg (by linarith) (by linarith)

lemma crop_height_nonneg (p : Rect) (l t r b : ℚ) (hp : p.y0 ≤ p.y1)
    (htb : t + b ≤ 1) : 0 ≤ (crop_rect_for p l t r b).height := by
  have hh : (crop_rect_for p l t r b).height = (p.y1 - p.y0) * (1 - (t + b)) := by
    simp only [crop_rect_for, Rect.width, Rect.height]
    ring
  rw [hh]
  exact mul_nonneg (by linarith) (by linarith)

lemma foldl_max_zero_mem {l : List ℚ} (hne : l ≠ []) (hnn : ∀ x ∈ l, 0 ≤ x) :
    l.foldl max 0 ∈ l := by
  rcases foldl_max_cases l 0 with h | h
  · rcases l with _ | ⟨hd, tl⟩
    · exact absurd rfl hne
    · have h1 : hd ≤ (hd :: tl).foldl max 0 :=
        foldl_max_le (hd :: tl) 0 hd (List.mem_cons_self hd tl)
      have h2 : 0 ≤ hd := hnn hd (List.mem_cons_self hd tl)
      have h3 : hd = (0 : ℚ) := le_antisymm (by rw [← h]; exact h1) h2
      rw [h, ← h3]
      exact List.mem_cons_self hd tl
  · exact h

/-- C4 (amended): for a non-empty page list and a margin set with fractions
in the unit interval whose opposite edges sum to at most 1, the planned
canvas width and height equal the maximum per-page cropped width and height,
each achieved by at least one page and at least as large as every page's
cropped dimension.  (With the fold's initial value 0, negative cropped
dimensions would not be achieved.) -/
theorem canvas_plan_max (pages : List Rect) (l t r b : ℚ)
    (hne : pages ≠ [])
    (hrect : ∀ p ∈ pages, p.x0 ≤ p.x1 ∧ p.y0 ≤ p.y1)
    (_hl : 0 ≤ l) (_ht : 0 ≤ t) (_hr : 0 ≤ r) (_hb : 0 ≤ b)
    (hlr : l + r ≤ 1) (htb : t + b ≤ 1) :
    ((canvas_plan pages l t r b).1 ∈
        pages.map (fun p => (crop_rect_for p l t r b).width) ∧
      ∀ x ∈ pages.map (fun p => (crop_rect_for p l t r b).width),
        x ≤ (canvas_plan pages l t r b).1) ∧
    ((canvas_plan pages l t r b).2 ∈
        pages.map (fun p => (crop_rect_for p l t r b).height) ∧
      ∀ x ∈ pages.map (fun p => (crop_rect_for p l t r b).height),
        x ≤ (canvas_plan pages l t r b).2) := by
  have hsplit := foldl_pair_max (fun p => (crop_rect_for p l t r b).width)
    (fun p => (crop_rect_for p l t r b).height) pages 0 0
  have hc : canvas_plan pages l t r b =
      ((pages.map (fun p => (crop_rect_for p l t r b).width)).foldl max 0,
       (pages.map (fun p => (crop_rect_for p l t r b).height)).foldl max 0) := hsplit
  rw [hc]
  have hwne : pages.map (fun p => (crop_rect_for p l t r b).width) ≠ [] := by
    simpa using hne
  have hhne : pages.map (fun p => (crop_rect_for p l t r b).height) ≠ [] := by
    simpa using hne
  have hwnn : ∀ x ∈ pages.map (fun p => (crop_rect_for p l t r b).width), 0 ≤ x := by
    intro x hx
    obtain ⟨p, hp, hpx⟩ := List.mem_map.1 hx
    rw [← hpx]
    exact crop_width_nonneg p l t r b (hrect p hp).1 hlr
  have hhnn : ∀ x ∈ pages.map (fun p => (crop_rect_for p l t r b).height), 0 ≤ x := by
    intro x hx
    obtain ⟨p, hp, hpx⟩ := List.mem_map.1 hx
    rw [← hpx]
    exact crop_height_nonneg p l t r b (hrect p hp).2 htb
  exact ⟨⟨foldl_max_zero_mem hwne hwnn, fun x hx => foldl_max_le _ 0 x hx⟩,
         ⟨foldl_max_zero_mem hhne hhnn, fun x hx => foldl_max_le _ 0 x hx⟩⟩

/-- Counterexample to C4 as stated: with one 1x1 page and the margin set
(0.9, 0, 0.9, 0) — all fractions in the unit interval — the planned canvas
width is 0, which is not the cropped width of any page (the only cropped
width is -0.8), so the maximum is not achieved and the claimed equality with
the per-page maximum fails. -/
theorem canvas_plan_cex :
    (0 : ℚ) ≤ 9 / 10 ∧ (9 / 10 : ℚ) < 1 ∧
    (canvas_plan [Rect.mk 0 0 1 1] (9 / 10) 0 (9 / 10) 0).1 ∉
      [Rect.mk 0 0 1 1].map (fun p => (crop_rect_for p (9 / 10) 0 (9 / 10) 0).width) := by
  refine ⟨by norm_num, by norm_num, ?_⟩
  norm_num [canvas_plan, crop_rect_for, Rect.width, Rect.height]

/-- Witness for C4 (amended) on two concrete pages with 10% margins. -/
theorem canvas_plan_max_w :
    (canvas_plan [Rect.mk 0 0 2 1, Rect.mk 0 0 1 1] (1 / 10) (1 / 10) (1 / 10) (1 / 10)).1 ∈
      [Rect.mk 0 0 2 1, Rect.mk 0 0 1 1].map
        (fun p => (crop_rect_for p (1 / 10) (1 / 10) (1 / 10) (1 / 10)).width) ∧
    ∀ x ∈ [Rect.mk 0 0 2 1, Rect.mk 0 0 1 1].map
        (fun p => (crop_rect_for p (1 / 10) (1 / 10) (1 / 10) (1 / 10)).width),
      x ≤ (canvas_plan [Rect.mk 0 0 2 1, Rect.mk 0 0 1 1] (1 / 10) (1 / 10) (1 / 10) (1 / 10)).1 :=
  (canvas_plan_max [Rect.mk 0 0 2 1, Rect.mk 0 0 1 1] (1 / 10) (1 / 10) (1 / 10) (1 / 10)
    (List.cons_ne_nil _ _)
    (by intro p hp; fin_cases hp <;> constructor <;> norm_num)
    (by norm_num) (by norm_num) (by norm_num) (by norm_num)
    (by norm_num) (by norm_num)).1

/-! ## C6: target rectangle fits the canvas and preserves aspect ratio -/

/-- C6: for positive cropped dimensions and positive canvas dimensions, the
target rectangle of the uniform-canvas transform lies fully inside
(0,0)-(canvasW, canvasH), and its width-to-height ratio equals the crop
rectangle's exactly. -/
theorem target_rect_in_canvas (canvasW canvasH : ℚ) (crop : Rect)
    (hcw : 0 < crop.width) (hch : 0 < crop.height)
    (hW : 0 < canvasW) (hH : 0 < canvasH) :
    0 ≤ (target_rect_for canvasW canvasH crop).x0 ∧
    0 ≤ (target_rect_for canvasW canvasH crop).y0 ∧
    (target_rect_for canvasW canvasH crop).x1 ≤ canvasW ∧
    (target_rect_for canvasW canvasH crop).y1 ≤ canvasH ∧
    ((target_rect_for canvasW canvasH crop).x1 - (target_rect_for canvasW canvasH crop).x0) /
        ((target_rect_for canvasW canvasH crop).y1 - (target_rect_for canvasW canvasH crop).y0) =
      crop.width / crop.height := by
  have hsx : scale_x_for canvasW crop.width = canvasW / crop.width := if_pos hcw
  have hsy : scale_y_for canvasH crop.height = canvasH / crop.height := if_pos hch
  have hspos : 0 < page_scale canvasW canvasH crop.width crop.height := by
    rw [page_scale, hsx, hsy]
    exact lt_min (div_pos hW hcw) (div_pos hH hch)
  have hsw : crop.width * page_scale canvasW canvasH crop.width crop.height ≤ canvasW := by
    have h1 : page_scale canvasW canvasH crop.width crop.height ≤ canvasW / crop.width := by
      rw [page_scale, hsx]
      exact min_le_left _ _
    calc crop.width * page_scale canvasW canvasH crop.width crop.height
        ≤ crop.width * (canvasW / crop.width) :=
          mul_le_mul_of_nonneg_left h1 (le_of_lt hcw)
      _ = canvasW := by field_simp
  have hsh : crop.height * page_scale canvasW canvasH crop.width crop.height ≤ canvasH := by
    have h1 : page_scale canvasW canvasH crop.width crop.height ≤ canvasH / crop.height := by
      rw [page_scale, hsy]
      exact min_le_right _ _
    calc crop.height * page_scale canvasW canvasH crop.width crop.height
        ≤ crop.height * (canvasH / crop.height) :=
          mul_le_mul_of_nonneg_left h1 (le_of_lt hch)
      _ = canvasH := by field_simp
  refine ⟨?_, ?_, ?_, ?_, ?_⟩
  · simp only [target_rect_for]
    linarith
  · simp only [target_rect_for]
    linarith
  · simp only [target_rect_for]
    linarith
  · simp only [target_rect_for]
    linarith
  · have hdw : (target_rect_for canvasW canvasH crop).x1 -
        (target_rect_for canvasW canvasH crop).x0 =
        crop.width * page_scale canvasW canvasH crop.width crop.height := by
      simp only [target_rect_for]
      ring
    have hdh : (target_rect_for canvasW canvasH crop).y1 -
        (target_rect_for canvasW canvasH crop).y0 =
        crop.height * page_scale canvasW canvasH crop.width crop.height := by
      simp only [target_rect_for]
      ring
    rw [hdw, hdh, mul_comm crop.width _, mul_comm crop.height _,
      mul_div_mul_left _ _ (ne_of_gt hspos)]

/-- Witness for C6 on a 4x4 canvas with a 2x1 crop rectangle. -/
theorem target_rect_in_canvas_w :
    0 ≤ (target_rect_for 4 4 (Rect.mk 0 0 2 1)).x0 ∧
    0 ≤ (target_rect_for 4 4 (Rect.mk 0 0 2 1)).y0 ∧
    (target_rect_for 4 4 (Rect.mk 0 0 2 1)).x1 ≤ 4 ∧
    (target_rect_for 4 4 (Rect.mk 0 0 2 1)).y1 ≤ 4 ∧
    ((target_rect_for 4 4 (Rect.mk 0 0 2 1)).x1 - (target_rect_for 4 4 (Rect.mk 0 0 2 1)).x0) /
        ((target_rect_for 4 4 (Rect.mk 0 0 2 1)).y1 - (target_rect_for 4 4 (Rect.mk 0 0 2 1)).y0) =
      (Rect.mk 0 0 2 1).width / (Rect.mk 0 0 2 1).height :=
  target_rect_in_canvas 4 4 (Rect.mk 0 0 2 1) (by norm_num [Rect.width])
    (by norm_num [Rect.height]) (by norm_num) (by norm_num)

/-! ## C1: the detected box lies within the page rectangle -/

lemma yMaxOf_le_yMaxRaw (g : PixelGrid) (threshold footerHeightRatio : ℚ) :
    yMaxOf g threshold footerHeightRatio ≤ yMaxRaw g threshold := by
  unfold yMaxOf
  split
  · split
    · next hg => exact le_of_lt hg.1
    · exact le_refl _
  · exact le_refl _

lemma xMaxOf_lt_w (g : PixelGrid) (threshold : ℚ)
    (hB : colsAny g threshold = true) : xMaxOf g threshold < g.w := by
  have hne : contentColList g threshold ≠ [] := trueIndices_ne_nil hB
  have hmem : xMaxOf g threshold ∈ contentColList g threshold := getLastD_mem hne 0
  have hlt := mem_trueIndices_lt
    (show xMaxOf g threshold ∈ trueIndices (colsMask g threshold) from hmem)
  simpa [colsMask] using hlt

lemma yMaxRaw_lt_h (g : PixelGrid) (threshold : ℚ)
    (hA : rowsAny g threshold = true) : yMaxRaw g threshold < g.h := by
  have hne : contentRowList g threshold ≠ [] := trueIndices_ne_nil hA
  have hmem : yMaxRaw g threshold ∈ contentRowList g threshold := getLastD_mem hne 0
  have hlt := mem_trueIndices_lt
    (show yMaxRaw g threshold ∈ trueIndices (rowsMask g threshold) from hmem)
  simpa [rowsMask, PixelGrid.h] using hlt

/-- C1: for every rendered page (a raster whose pixel dimensions come from
the 2x zoom of the page rectangle), the detector's resulting rectangle is
contained within, or equal to, the page rectangle, for any background
threshold and any footer height ratio. -/
theorem content_bbox_within_page (g : PixelGrid) (pageRect : Rect)
    (threshold footerHeightRatio : ℚ)
    (hw : (g.w : ℚ) ≤ 2 * (pageRect.x1 - pageRect.x0) + 1)
    (hh : (g.h : ℚ) ≤ 2 * (pageRect.y1 - pageRect.y0) + 1) :
    pageRect.x0 ≤ (get_content_bbox g pageRect threshold footerHeightRatio).x0 ∧
    pageRect.y0 ≤ (get_content_bbox g pageRect threshold footerHeightRatio).y0 ∧
    (get_content_bbox g pageRect threshold footerHeightRatio).x1 ≤ pageRect.x1 ∧
    (get_content_bbox g pageRect threshold footerHeightRatio).y1 ≤ pageRect.y1 := by
  cases hA : rowsAny g threshold with
  | false =>
    have hfull : get_content_bbox g pageRect threshold footerHeightRatio = pageRect := by
      unfold get_content_bbox
      rw [hA]
      rfl
    rw [hfull]
    exact ⟨le_refl _, le_refl _, le_refl _, le_refl _⟩
  | true =>
    cases hB : colsAny g threshold with
    | false =>
      have hfull : get_content_bbox g pageRect threshold footerHeightRatio = pageRect := by
        unfold get_content_bbox
        rw [hA, hB]
        rfl
      rw [hfull]
      exact ⟨le_refl _, le_refl _, le_refl _, le_refl _⟩
    | true =>
      have hbox : get_content_bbox g pageRect threshold footerHeightRatio =
          { x0 := pageRect.x0 + (xMinOf g threshold : ℚ) / 2
            y0 := pageRect.y0 + (yMinOf g threshold : ℚ) / 2
            x1 := pageRect.x0 + (xMaxOf g threshold : ℚ) / 2
            y1 := pageRect.y0 + (yMaxOf g threshold footerHeightRatio : ℚ) / 2 } := by
        unfold get_content_bbox
        rw [hA, hB]
        rfl
      rw [hbox]
      have hx : xMaxOf g threshold + 1 ≤ g.w := xMaxOf_lt_w g threshold hB
      have hy : yMaxOf g threshold footerHeightRatio + 1 ≤ g.h :=
        Nat.lt_of_le_of_lt (yMaxOf_le_yMaxRaw g threshold footerHeightRatio)
          (yMaxRaw_lt_h g threshold hA)
      have hxq : (xMaxOf g threshold : ℚ) + 1 ≤ (g.w : ℚ) := by exact_mod_cast hx
      have hyq : (yMaxOf g threshold footerHeightRatio : ℚ) + 1 ≤ (g.h : ℚ) := by
        exact_mod_cast hy
      have hxm : (0 : ℚ) ≤ (xMinOf g threshold : ℚ) := Nat.cast_nonneg _
      have hym : (0 : ℚ) ≤ (yMinOf g threshold : ℚ) := Nat.cast_nonneg _
      refine ⟨?_, ?_, ?_, ?_⟩
      · simp only []
        linarith
      · simp only []
        linarith
      · simp only []
        linarith
      · simp only []
        linarith

/-- Witness for C1 on a concrete one-pixel grid and a unit page. -/
theorem content_bbox_within_page_w :
    ((gridC1.w : ℚ) ≤ 2 * ((Rect.mk 0 0 1 1).x1 - (Rect.mk 0 0 1 1).x0) + 1) ∧
    ((gridC1.h : ℚ) ≤ 2 * ((Rect.mk 0 0 1 1).y1 - (Rect.mk 0 0 1 1).y0) + 1) ∧
    ((Rect.mk 0 0 1 1).x0 ≤ (get_content_bbox gridC1 (Rect.mk 0 0 1 1) (95 / 100) (1 / 10)).x0 ∧
     (Rect.mk 0 0 1 1).y0 ≤ (get_content_bbox gridC1 (Rect.mk 0 0 1 1) (95 / 100) (1 / 10)).y0 ∧
     (get_content_bbox gridC1 (Rect.mk 0 0 1 1) (95 / 100) (1 / 10)).x1 ≤ (Rect.mk 0 0 1 1).x1 ∧
     (get_content_bbox gridC1 (Rect.mk 0 0 1 1) (95 / 100) (1 / 10)).y1 ≤ (Rect.mk 0 0 1 1).y1) :=
  ⟨by norm_num [PixelGrid.w, gridC1],
   by norm_num [PixelGrid.h, gridC1],
   content_bbox_within_page gridC1 (Rect.mk 0 0 1 1) (95 / 100) (1 / 10)
     (by norm_num [PixelGrid.w, gridC1]) (by norm_num [PixelGrid.h, gridC1])⟩

/-! ## C3: the aggregator computes clamped 25th percentiles minus buffer -/

lemma foldl_marginStep :
    ∀ (l : List (Rect × Rect)) (acc : List ℚ × List ℚ × List ℚ × List ℚ),
      l.foldl marginStep acc =
        (acc.1 ++ l.map (fun cp => leftMarginOf cp.1 cp.2),
         acc.2.1 ++ l.map (fun cp => topMarginOf cp.1 cp.2),
         acc.2.2.1 ++ l.map (fun cp => rightMarginOf cp.1 cp.2),
         acc.2.2.2 ++ l.map (fun cp => bottomMarginOf cp.1 cp.2)) := by
  intro l
  induction l with
  | nil =>
    intro acc
    obtain ⟨a, b, c, d⟩ := acc
    simp
  | cons cp l ih =>
    intro acc
    rw [List.foldl_cons, ih]
    simp [marginStep]

/-- C3: on a non-empty sample list, the aggregator equals the claim's
formula: for each edge independently, the clamp-to-zero of the 25th
percentile of the clamped raw margin fractions minus the buffer. -/
theorem aggregate_eq_spec (samples : List (Rect × Rect)) (buffer : ℚ)
    (_hne : samples ≠ []) :
    analyze_pdf_margins (samples.map Prod.fst) (samples.map Prod.snd) buffer =
      specMarginAggregate samples buffer := by
  have hzip : (samples.map Prod.fst).zip (samples.map Prod.snd) = samples := by
    rw [List.zip_map']
    simp
  unfold analyze_pdf_margins marginLists
  rw [hzip, foldl_marginStep]
  unfold specMarginAggregate leftMarginOf topMarginOf rightMarginOf bottomMarginOf
  simp [Rect.width, Rect.height]

/-- Witness for C3 on a single concrete sample. -/
theorem aggregate_eq_spec_w :
    [(Rect.mk 1 1 9 9, Rect.mk 0 0 10 10)] ≠ ([] : List (Rect × Rect)) ∧
    analyze_pdf_margins ([(Rect.mk 1 1 9 9, Rect.mk 0 0 10 10)].map Prod.fst)
        ([(Rect.mk 1 1 9 9, Rect.mk 0 0 10 10)].map Prod.snd) (1 / 100) =
      specMarginAggregate [(Rect.mk 1 1 9 9, Rect.mk 0 0 10 10)] (1 / 100) :=
  ⟨List.cons_ne_nil _ _,
   aggregate_eq_spec [(Rect.mk 1 1 9 9, Rect.mk 0 0 10 10)] (1 / 100)
     (List.cons_ne_nil _ _)⟩

/-! ## C9: range of the aggregated margins -/

lemma percentile25_le_one (l : List ℚ) (hne : l ≠ []) (hb : ∀ x ∈ l, x ≤ 1) :
    percentile25 l ≤ 1 := by
  have hperm : (sortedOf l).Perm l := List.perm_insertionSort _ l
  have hlen : (sortedOf l).length = l.length := hperm.length_eq
  have hlpos : 0 < l.length := List.length_pos.2 hne
  have hone : (1 : ℚ) ≤ (l.length : ℚ) := by exact_mod_cast hlpos
  have hpos0 : 0 ≤ pctPos l := by
    unfold pctPos
    nlinarith
  have hposle : pctPos l ≤ (l.length : ℚ) - 1 := by
    unfold pctPos
    nlinarith
  have hkq : (⌊pctPos l⌋ : ℚ) ≤ (l.length : ℚ) - 1 :=
    le_trans (Int.floor_le (pctPos l)) hposle
  have hkz : ⌊pctPos l⌋ ≤ (l.length : ℤ) - 1 := by exact_mod_cast hkq
  have hk_lt : (⌊pctPos l⌋).toNat < l.length := by omega
  have hmem : ∀ j, j < (sortedOf l).length → (sortedOf l).getD j 0 ≤ 1 := by
    intro j hj
    rw [List.getD_eq_getElem _ _ hj]
    exact hb _ (hperm.subset (List.getElem_mem hj))
  have hfrac0 : 0 ≤ pctPos l - (⌊pctPos l⌋ : ℚ) := by
    linarith [Int.floor_le (pctPos l)]
  have hfrac1 : pctPos l - (⌊pctPos l⌋ : ℚ) < 1 := by
    linarith [Int.lt_floor_add_one (pctPos l)]
  have ha : (sortedOf l).getD (⌊pctPos l⌋).toNat 0 ≤ 1 := by
    apply hmem
    rw [hlen]
    exact hk_lt
  have hbv : (sortedOf l).getD ((⌊pctPos l⌋).toNat + 1) 0 ≤ 1 := by
    by_cases hk1 : (⌊pctPos l⌋).toNat + 1 < (sortedOf l).length
    · exact hmem _ hk1
    · rw [List.getD_eq_default]
      · norm_num
      · omega
  unfold percentile25
  nlinarith [mul_nonneg (le_of_lt (sub_pos.2 hfrac1)) (sub_nonneg.2 ha),
    mul_nonneg hfrac0 (sub_nonneg.2 hbv)]

lemma suggested_bound (l : List ℚ) (buffer : ℚ) (hne : l ≠ [])
    (hb : ∀ x ∈ l, x ≤ 1) (hbuf : 0 < buffer) :
    0 ≤ max 0 (percentile25 l - buffer) ∧ max 0 (percentile25 l - buffer) < 1 :=
  ⟨le_max_left _ _,
   max_lt_iff.2 ⟨by norm_num, by linarith [percentile25_le_one l hne hb]⟩⟩

/-- C9 (amended): for a non-empty sample set whose clamped per-sample margin
fractions are at most 1, and a strictly positive buffer in the allowed
range, every aggregated margin satisfies 0 <= value < 1.  (With buffer = 0,
all-maximal margins make the output exactly 1, so strict positivity of the
buffer is required.) -/
theorem margins_range (content_boxes page_sizes : List Rect) (buffer : ℚ)
    (hne : content_boxes.zip page_sizes ≠ [])
    (hbuf : 0 < buffer) (_hbuf2 : buffer ≤ 1 / 10)
    (hm : ∀ cp ∈ content_boxes.zip page_sizes,
      leftMarginOf cp.1 cp.2 ≤ 1 ∧ topMarginOf cp.1 cp.2 ≤ 1 ∧
      rightMarginOf cp.1 cp.2 ≤ 1 ∧ bottomMarginOf cp.1 cp.2 ≤ 1) :
    (0 ≤ (analyze_pdf_margins content_boxes page_sizes buffer).1 ∧
      (analyze_pdf_margins content_boxes page_sizes buffer).1 < 1) ∧
    (0 ≤ (analyze_pdf_margins content_boxes page_sizes buffer).2.1 ∧
      (analyze_pdf_margins content_boxes page_sizes buffer).2.1 < 1) ∧
    (0 ≤ (analyze_pdf_margins content_boxes page_sizes buffer).2.2.1 ∧
      (analyze_pdf_margins content_boxes page_sizes buffer).2.2.1 < 1) ∧
    (0 ≤ (analyze_pdf_margins content_boxes page_sizes buffer).2.2.2 ∧
      (analyze_pdf_margins content_boxes page_sizes buffer).2.2.2 < 1) := by
  have hml := foldl_marginStep (content_boxes.zip page_sizes) ([], [], [], [])
  have hmm : ∀ (f : Rect × Rect → ℚ),
      (∀ cp ∈ content_boxes.zip page_sizes, f cp ≤ 1) →
      ∀ x ∈ (content_boxes.zip page_sizes).map f, x ≤ 1 := by
    intro f hf x hx
    obtain ⟨cp, hcp, hcpx⟩ := List.mem_map.1 hx
    rw [← hcpx]
    exact hf cp hcp
  have hmapne : ∀ (f : Rect × Rect → ℚ),
      (content_boxes.zip page_sizes).map f ≠ [] := by
    intro f
    simpa using hne
  unfold analyze_pdf_margins marginLists
  rw [hml]
  simp only [List.nil_append]
  exact ⟨suggested_bound _ buffer (hmapne _)
      (hmm _ (fun cp hcp => (hm cp hcp).1)) hbuf,
    suggested_bound _ buffer (hmapne _)
      (hmm _ (fun cp hcp => (hm cp hcp).2.1)) hbuf,
    suggested_bound _ buffer (hmapne _)
      (hmm _ (fun cp hcp => (hm cp hcp).2.2.1)) hbuf,
    suggested_bound _ buffer (hmapne _)
      (hmm _ (fun cp hcp => (hm cp hcp).2.2.2)) hbuf⟩

/-- Counterexample to C9 as stated: a single sample with all-maximal left
and top margins (content box collapsed to the page's bottom-right corner)
and buffer = 0 — which the CLI accepts — makes the aggregated left margin
exactly 1, violating the claimed strict upper bound. -/
theorem margins_range_cex :
    (analyze_pdf_margins [Rect.mk 1 1 1 1] [Rect.mk 0 0 1 1] 0).1 = 1 := by
  norm_num [analyze_pdf_margins, marginLists, marginStep, leftMarginOf,
    percentile25, sortedOf, pctPos, Rect.width, List.insertionSort,
    List.orderedInsert]

/-- Witness for C9 (amended) on one concrete sample with 10% margins. -/
theorem margins_range_w :
    (0 ≤ (analyze_pdf_margins [Rect.mk 1 1 9 9] [Rect.mk 0 0 10 10] (1 / 100)).1 ∧
      (analyze_pdf_margins [Rect.mk 1 1 9 9] [Rect.mk 0 0 10 10] (1 / 100)).1 < 1) ∧
    (0 ≤ (analyze_pdf_margins [Rect.mk 1 1 9 9] [Rect.mk 0 0 10 10] (1 / 100)).2.1 ∧
      (analyze_pdf_margins [Rect.mk 1 1 9 9] [Rect.mk 0 0 10 10] (1 / 100)).2.1 < 1) ∧
    (0 ≤ (analyze_pdf_margins [Rect.mk 1 1 9 9] [Rect.mk 0 0 10 10] (1 / 100)).2.2.1 ∧
      (analyze_pdf_margins [Rect.mk 1 1 9 9] [Rect.mk 0 0 10 10] (1 / 100)).2.2.1 < 1) ∧
    (0 ≤ (analyze_pdf_margins [Rect.mk 1 1 9 9] [Rect.mk 0 0 10 10] (1 / 100)).2.2.2 ∧
      (analyze_pdf_margins [Rect.mk 1 1 9 9] [Rect.mk 0 0 10 10] (1 / 100)).2.2.2 < 1) :=
  margins_range [Rect.mk 1 1 9 9] [Rect.mk 0 0 10 10] (1 / 100)
    (by simp) (by norm_num) (by norm_num)
    (by
      intro cp hcp
      simp only [List.zip_cons_cons, List.zip_nil_right, List.mem_singleton] at hcp
      subst hcp
      norm_num [leftMarginOf, topMarginOf, rightMarginOf, bottomMarginOf,
        Rect.width, Rect.height])

/-! ## C2: footer isolation truncation -/

lemma any_of_trueIndices_ne_nil {bs : List Bool} (h : trueIndices bs ≠ []) :
    bs.any id = true := by
  have hm : (trueIndices bs).headD 0 ∈ trueIndices bs := headD_mem h 0
  have hlt : (trueIndices bs).headD 0 < bs.length := mem_trueIndices_lt hm
  have hget : bs.getD ((trueIndices bs).headD 0) false = true := by
    simp only [trueIndices, List.mem_filter, List.mem_range] at hm
    exact hm.2
  rw [List.getD_eq_get _ _ hlt] at hget
  exact List.any_eq_true.2 ⟨_, List.get_mem bs _ hlt, by simpa using hget⟩

lemma gapScan_first_hit (cr : List ℕ) (gt fs : ℤ) (i : ℕ) (hi1 : 1 ≤ i)
    (hcond : gt < (cr.getD i 0 : ℤ) - (cr.getD (i - 1) 0 : ℤ) ∧
      fs < (cr.getD i 0 : ℤ)) :
    ∀ m, i ≤ m →
      (∀ j, i < j → j ≤ m →
        ¬(gt < (cr.getD j 0 : ℤ) - (cr.getD (j - 1) 0 : ℤ) ∧
          fs < (cr.getD j 0 : ℤ))) →
      gapScan cr gt fs m = some (cr.getD (i - 1) 0) := by
  intro m
  induction m with
  | zero => intro him _; omega
  | succ m ih =>
    intro him hafter
    by_cases heq : i = m + 1
    · subst heq
      rw [gapScan, if_pos]
      · simp
      · simpa using hcond
    · have hlt : i ≤ m := by omega
      rw [gapScan, if_neg]
      · exact ih hlt (fun j hj1 hj2 => hafter j hj1 (by omega))
      · have hnc := hafter (m + 1) (by omega) (le_refl _)
        simpa using hnc

/-- C2 (amended): whenever the footer band holds a content row and the
backward scan's first hit — the largest index i with a gap exceeding the
threshold AND the later row index STRICTLY greater than the band's start
index — exists, the detector's bottom coordinate comes from the content row
before that gap, but only when that row lies strictly between the top and
bottom content bounds; otherwise the vertical range is unchanged. -/
theorem footer_truncation_strict (g : PixelGrid) (pageRect : Rect)
    (threshold footerHeightRatio : ℚ) (i : ℕ)
    (hcols : colsAny g threshold = true)
    (hfoot : footerAny g threshold footerHeightRatio = true)
    (hi1 : 1 ≤ i) (hi2 : i < (contentRowList g threshold).length)
    (hcond : gapThreshold g.h < ((contentRowList g threshold).getD i 0 : ℤ) -
        ((contentRowList g threshold).getD (i - 1) 0 : ℤ) ∧
      footerStart g.h footerHeightRatio < ((contentRowList g threshold).getD i 0 : ℤ))
    (hafter : ∀ j, i < j → j < (contentRowList g threshold).length →
      ¬(gapThreshold g.h < ((contentRowList g threshold).getD j 0 : ℤ) -
          ((contentRowList g threshold).getD (j - 1) 0 : ℤ) ∧
        footerStart g.h footerHeightRatio <
          ((contentRowList g threshold).getD j 0 : ℤ))) :
    (get_content_bbox g pageRect threshold footerHeightRatio).y1 =
      pageRect.y0 +
        (((if (contentRowList g threshold).getD (i - 1) 0 < yMaxRaw g threshold ∧
              yMinOf g threshold < (contentRowList g threshold).getD (i - 1) 0
            then (contentRowList g threshold).getD (i - 1) 0
            else yMaxRaw g threshold : ℕ) : ℚ)) / 2 := by
  have hne : contentRowList g threshold ≠ [] := by
    intro hnil
    rw [hnil] at hi2
    simp at hi2
  have hrows : rowsAny g threshold = true := any_of_trueIndices_ne_nil hne
  have hscan : gapScan (contentRowList g threshold) (gapThreshold g.h)
      (footerStart g.h footerHeightRatio) ((contentRowList g threshold).length - 1) =
      some ((contentRowList g threshold).getD (i - 1) 0) := by
    apply gapScan_first_hit _ _ _ i hi1 hcond
    · omega
    · intro j hj1 hj2
      exact hafter j hj1 (by omega)
  have hmce : mainContentEnd g threshold footerHeightRatio =
      (contentRowList g threshold).getD (i - 1) 0 := by
    unfold mainContentEnd
    rw [hscan]
    rfl
  have hbox : (get_content_bbox g pageRect threshold footerHeightRatio).y1 =
      pageRect.y0 + ((yMaxOf g threshold footerHeightRatio : ℕ) : ℚ) / 2 := by
    unfold get_content_bbox
    rw [hrows, hcols]
    rfl
  rw [hbox]
  unfold yMaxOf
  rw [if_pos hfoot, hmce]

/-- Counterexample to C2 as stated: on gridC2 the footer band (rows 8-9 of
10) contains a content row, the first bottom-up gap (rows 2 to 8, size 6,
threshold 0) has its later row at index 8, which lies within the band, so
the claim demands truncation to end at row 2 (y1 = y0 + 2/2); the detector
instead keeps y1 = y0 + 8/2 because its scan requires index > 8 strictly. -/
theorem footer_truncation_cex :
    footerAny gridC2 (95 / 100) (2 / 10) = true ∧
    gapScanSpec (contentRowList gridC2 (95 / 100)) (gapThreshold gridC2.h)
      (footerStart gridC2.h (2 / 10))
      ((contentRowList gridC2 (95 / 100)).length - 1) = some 2 ∧
    (get_content_bbox gridC2 (Rect.mk 0 0 5 5) (95 / 100) (2 / 10)).y1 =
      (Rect.mk 0 0 5 5).y0 + 8 / 2 ∧
    (get_content_bbox gridC2 (Rect.mk 0 0 5 5) (95 / 100) (2 / 10)).y1 ≠
      (Rect.mk 0 0 5 5).y0 + 2 / 2 := by
  refine ⟨?_, ?_, ?_, ?_⟩ <;>
    norm_num [gridC2, footerAny, footerStart, pyInt, pySliceFrom, rowsMask,
      rowHasContent, isContentPixel, PixelGrid.h, PixelGrid.w, contentRowList,
      contentColList, trueIndices, gapScanSpec, gapThreshold, get_content_bbox,
      rowsAny, colsAny, colsMask, colHasContent, yMaxOf, yMinOf, yMaxRaw,
      xMinOf, xMaxOf, mainContentEnd, gapScan, List.range_succ] <;>
    decide

/-- Witness for C2 (amended) on gridC2w with the first-hit index i = 2. -/
theorem footer_truncation_strict_w :
    (get_content_bbox gridC2w (Rect.mk 0 0 5 5) (95 / 100) (2 / 10)).y1 =
      (Rect.mk 0 0 5 5).y0 +
        (((if (contentRowList gridC2w (95 / 100)).getD 1 0 < yMaxRaw gridC2w (95 / 100) ∧
              yMinOf gridC2w (95 / 100) < (contentRowList gridC2w (95 / 100)).getD 1 0
            then (contentRowList gridC2w (95 / 100)).getD 1 0
            else yMaxRaw gridC2w (95 / 100) : ℕ) : ℚ)) / 2 :=
  footer_truncation_strict gridC2w (Rect.mk 0 0 5 5) (95 / 100) (2 / 10) 2
    (by norm_num [colsAny, colsMask, colHasContent, isContentPixel, gridC2w,
      PixelGrid.w, List.range_succ])
    (by norm_num [footerAny, footerStart, pyInt, pySliceFrom, rowsMask,
      rowHasContent, isContentPixel, gridC2w, PixelGrid.h] <;> decide)
    (by norm_num)
    (by norm_num [contentRowList, trueIndices, rowsMask, rowHasContent,
      isContentPixel, gridC2w, List.range_succ])
    (by norm_num [contentRowList, trueIndices, rowsMask, rowHasContent,
      isContentPixel, gridC2w, List.range_succ, gapThreshold, footerStart,
      pyInt, PixelGrid.h])
    (by
      intro j hj1 hj2
      have hlen : (contentRowList gridC2w (95 / 100)).length = 3 := by
        norm_num [contentRowList, trueIndices, rowsMask, rowHasContent,
          isContentPixel, gridC2w, List.range_succ]
      rw [hlen] at hj2
      exact absurd hj2 (by omega))

/-! ## C5: the manual-crop gate -/

lemma gui_fold_spec (pages : List Rect) (minPage maxPage : ℕ) (cropRect : Rect)
    (mcs : ℤ × ℤ) :
    ∀ (l : List ℕ) (out : List GPage) (c u : ℕ),
      (l.foldl (guiStep pages minPage maxPage cropRect mcs) (out, c, u)).1 =
          out ++ l.map (guiPageFor pages minPage maxPage cropRect mcs) ∧
        (l.foldl (guiStep pages minPage maxPage cropRect mcs) (out, c, u)).2.1 +
          (l.foldl (guiStep pages minPage maxPage cropRect mcs) (out, c, u)).2.2 =
          c + u + l.length := by
  intro l
  induction l with
  | nil => intro out c u; simp
  | cons a l ih =>
    intro out c u
    rw [List.foldl_cons]
    by_cases hca : minPage ≤ a + 1 ∧ a + 1 ≤ maxPage ∧
        page_size_rounded (pages.getD a (Rect.mk 0 0 0 0)) = mcs
    · have hstep : guiStep pages minPage maxPage cropRect mcs (out, c, u) a =
          (out ++ [GPage.cropped cropRect.width cropRect.height
            (Rect.mk 0 0 cropRect.width cropRect.height) cropRect], c + 1, u) := by
        rw [guiStep, if_pos hca]
      rw [hstep]
      obtain ⟨h1, h2⟩ := ih (out ++ [GPage.cropped cropRect.width cropRect.height
        (Rect.mk 0 0 cropRect.width cropRect.height) cropRect]) (c + 1) u
      refine ⟨?_, ?_⟩
      · rw [h1, List.map_cons]
        rw [guiPageFor, if_pos hca]
        simp
      · rw [h2]
        simp
        omega
    · have hstep : guiStep pages minPage maxPage cropRect mcs (out, c, u) a =
          (out ++ [GPage.unchanged (pages.getD a (Rect.mk 0 0 0 0))], c, u + 1) := by
        rw [guiStep, if_neg hca]
      rw [hstep]
      obtain ⟨h1, h2⟩ := ih (out ++ [GPage.unchanged (pages.getD a (Rect.mk 0 0 0 0))]) c (u + 1)
      refine ⟨?_, ?_⟩
      · rw [h1, List.map_cons]
        rw [guiPageFor, if_neg hca]
        simp
      · rw [h2]
        simp
        omega

/-- C5: in explicit-rectangle mode, the i-th output page is the cropped page
(with the caller's rectangle) if and only if the 1-based index i+1 lies in
the inclusive range AND the page's rounded size equals the most common
rounded size; otherwise it is the original page unchanged; and the cropped
count plus the unchanged count equals the total page count. -/
theorem gui_crop_policy (pages : List Rect) (minPage maxPage : ℕ) (cropRect : Rect) :
    (gui_crop_pdf pages minPage maxPage cropRect).1.length = pages.length ∧
    (∀ i, i < pages.length →
      (gui_crop_pdf pages minPage maxPage cropRect).1.getD i
          (GPage.unchanged (Rect.mk 0 0 0 0)) =
        if minPage ≤ i + 1 ∧ i + 1 ≤ maxPage ∧
            page_size_rounded (pages.getD i (Rect.mk 0 0 0 0)) =
              most_common_size (pages.map page_size_rounded)
        then GPage.cropped cropRect.width cropRect.height
          (Rect.mk 0 0 cropRect.width cropRect.height) cropRect
        else GPage.unchanged (pages.getD i (Rect.mk 0 0 0 0))) ∧
    (gui_crop_pdf pages minPage maxPage cropRect).2.1 +
      (gui_crop_pdf pages minPage maxPage cropRect).2.2 = pages.length := by
  obtain ⟨h1, h2⟩ := gui_fold_spec pages minPage maxPage cropRect
    (most_common_size (pages.map page_size_rounded)) (List.range pages.length) [] 0 0
  unfold gui_crop_pdf
  refine ⟨?_, ?_, ?_⟩
  · rw [h1]
    simp
  · intro i hi
    rw [h1]
    simp only [List.nil_append]
    have hlen : i < ((List.range pages.length).map
        (guiPageFor pages minPage maxPage cropRect
          (most_common_size (pages.map page_size_rounded)))).length := by
      simpa using hi
    rw [List.getD_eq_getElem _ _ hlen, List.getElem_map, List.getElem_range]
    rfl
  · rw [h2]
    simp

/-- Witness for C5 on a 3-page document (two 10x10 pages, one 5x5 page) with
crop range 1-2: page 2 (index 1) is inside the range but off-size, so it is
carried through unchanged. -/
theorem gui_crop_policy_w :
    (gui_crop_pdf [Rect.mk 0 0 10 10, Rect.mk 0 0 5 5, Rect.mk 0 0 10 10] 1 2
        (Rect.mk 1 1 4 4)).1.getD 1 (GPage.unchanged (Rect.mk 0 0 0 0)) =
      GPage.unchanged (Rect.mk 0 0 5 5) ∧
    (gui_crop_pdf [Rect.mk 0 0 10 10, Rect.mk 0 0 5 5, Rect.mk 0 0 10 10] 1 2
        (Rect.mk 1 1 4 4)).2.1 +
      (gui_crop_pdf [Rect.mk 0 0 10 10, Rect.mk 0 0 5 5, Rect.mk 0 0 10 10] 1 2
        (Rect.mk 1 1 4 4)).2.2 = 3 := by
  have h := gui_crop_policy [Rect.mk 0 0 10 10, Rect.mk 0 0 5 5, Rect.mk 0 0 10 10]
    1 2 (Rect.mk 1 1 4 4)
  refine ⟨?_, by simpa using h.2.2⟩
  have h1 := h.2.1 1 (by norm_num)
  rw [h1]
  rw [if_neg]
  · norm_num
  · intro hc
    have hsz := hc.2.2
    norm_num [page_size_rounded, pyRound, Rect.width, Rect.height,
      most_common_size, firstDistinct, List.count] at hsz
